import Mathlib

/-!
Verification of the INET streaming transmitter state machine
(`StreamThroughTransmitter`) and the path-visualization tracker
(`PathVisualizerBase`) against their natural-language specification.

Modelling conventions:
* simulated time, clock time and datarates are rationals (`ℚ`);
* bit positions are integers (`ℤ`); where the C++ code converts through
  `double` and applies `std::floor`, the model applies `Int.floor` to the
  exact rational value;
* the `bps(NaN)` sentinel datarate is modelled as `none : Option ℚ`;
  any `<` comparison involving `none` is `false`, matching IEEE NaN
  comparison semantics used by the code;
* `ASSERT` failures and `cRuntimeError` are modelled as `Except.error`.
-/

namespace StreamThroughTransmitter

/-- A packet: its content as a list of bits together with the bit-error
flag (`Packet::setBitError`).  `getTotalLength` is the content length. -/
structure Packet where
  content : List Bool
  bitError : Bool
deriving DecidableEq, Repr

def Packet.totalLength (p : Packet) : ℕ := p.content.length

/-- A signal: the encapsulated packet plus the transmission duration. -/
structure Signal where
  packet : Packet
  duration : ℚ
deriving DecidableEq, Repr

/-- Modelled from the spec: the packet codec is an opaque external
collaborator (§6, "Signal encode/decode"); its only property used by the
transmitter is that it deterministically encapsulates the packet and fixes
the signal duration from the content length at the committed transmission
datarate. -/
def encodePacket (rate : ℚ) (p : Packet) : Signal :=
  { packet := p, duration := (p.totalLength : ℚ) / rate }

/-- `Packet::peekAll()->containsSameData`: content identity of the data. -/
def containsSameData (p q : Packet) : Bool := p.content == q.content

/-- `Packet::eraseAtBack(n)`: remove `n` bits from the back of the content. -/
def eraseAtBack (p : Packet) (n : ℤ) : Packet :=
  { p with content := p.content.take (p.content.length - n.toNat) }

/-- The mutable state of a `StreamThroughTransmitter` module.  The timer
fields hold the absolute time the timer is scheduled at, or `none` when it
is not scheduled.  Sentinel "unset" values: `-1` for times and positions,
`none` (NaN) for datarates. -/
structure TxState where
  txSignal : Option Signal
  txDatarate : Option ℚ
  txStartTime : ℚ
  txStartClockTime : ℚ
  lastTxProgressTime : ℚ
  lastTxProgressPosition : ℤ
  lastInputDatarate : Option ℚ
  lastInputProgressTime : ℚ
  lastInputProgressPosition : ℤ
  txEndTimer : Option ℚ
  bufferUnderrunTimer : Option ℚ
deriving DecidableEq, Repr

/-- Freshly initialized transmitter: nothing in flight, all fields unset. -/
def initTxState : TxState :=
  { txSignal := none
    txDatarate := none
    txStartTime := -1
    txStartClockTime := -1
    lastTxProgressTime := -1
    lastTxProgressPosition := -1
    lastInputDatarate := none
    lastInputProgressTime := -1
    lastInputProgressPosition := -1
    txEndTimer := none
    bufferUnderrunTimer := none }

/-- Modelled from the spec: `isTransmitting()` is declared in
`StreamingTransmitterBase` (header not part of the sampled sources); the
spec states it is "true iff `txSignal != null`". -/
def isTransmitting (s : TxState) : Bool := s.txSignal.isSome

/-- `<` on datarates where `none` models `bps(NaN)`: any comparison with
NaN is false. -/
def rateLt : Option ℚ → Option ℚ → Bool
  | some x, some y => decide (x < y)
  | _, _ => false

/-- `StreamThroughTransmitter::scheduleBufferUnderrunTimer`: cancel any
pending timer; when `lastInputDatarate < txDatarate`, solve the
intersection time of the two linear position extrapolations and schedule
the timer at that absolute time. -/
def scheduleBufferUnderrunTimer (s : TxState) : TxState :=
  if rateLt s.lastInputDatarate s.txDatarate then
    let ri := s.lastInputDatarate.getD 0
    let rt := s.txDatarate.getD 0
    let t := (-(s.lastInputProgressPosition : ℚ) + ri * s.lastInputProgressTime
              + (s.lastTxProgressPosition : ℚ) - rt * s.lastTxProgressTime) / (ri - rt)
    { s with bufferUnderrunTimer := some t }
  else
    { s with bufferUnderrunTimer := none }

/-- `StreamThroughTransmitter::scheduleTxEndTimer`: cancel and reschedule
the end timer at `txStartClockTime + signal duration`. -/
def scheduleTxEndTimer (s : TxState) (signal : Signal) : TxState :=
  { s with txEndTimer := some (s.txStartClockTime + signal.duration) }

/-- Observable outbound effects of a transition. -/
inductive TxOutput where
  | transmissionStarted (signal : Signal)
  | signalStart (signal : Signal)
  | signalProgress (signal : Signal) (position : ℤ) (timePosition : ℚ)
  | transmissionEnded (signal : Signal)
  | sendSignalEnd (signal : Signal)
  | packetProcessed (packet : Packet)
  | packetDeleted (packet : Packet)
deriving DecidableEq, Repr

/-- `StreamThroughTransmitter::startTx`.  `cfgRate` is the module's
`datarate` parameter (`*dataratePar`); `now` is `simTime()`, `clockNow`
is `getClockTime()`. -/
def startTx (s : TxState) (packet : Packet) (datarate : Option ℚ) (position : ℤ)
    (now clockNow cfgRate : ℚ) : Except String (TxState × List TxOutput) :=
  if isTransmitting s then .error "ASSERT !isTransmitting" else
  let s := { s with
    lastInputDatarate := datarate
    lastInputProgressTime := now
    lastInputProgressPosition := position
    txDatarate := some cfgRate
    txStartTime := now
    txStartClockTime := clockNow
    lastTxProgressTime := now
    lastTxProgressPosition := 0 }
  let signal := encodePacket cfgRate packet
  let s := { s with txSignal := some signal }
  let s := scheduleTxEndTimer s signal
  let s := scheduleBufferUnderrunTimer s
  .ok (s, [.transmissionStarted signal, .signalStart signal])

/-- `StreamThroughTransmitter::progressTx`. -/
def progressTx (s : TxState) (packet : Packet) (datarate : Option ℚ) (position : ℤ)
    (now clockNow : ℚ) : Except String (TxState × List TxOutput) :=
  match s.txSignal with
  | none => .error "ASSERT isTransmitting"
  | some txSig =>
    let inputProgressPosition : Option ℤ := s.lastInputDatarate.map
      (fun r => s.lastInputProgressPosition + Int.floor ((now - s.lastInputProgressTime) * r))
    let txPacket := txSig.packet
    let isInputProgressAtEnd : Bool :=
      inputProgressPosition == some (packet.totalLength : ℤ)
        && packet.totalLength == txPacket.totalLength
    let isPacketUnchangedSinceLastProgress : Bool :=
      isInputProgressAtEnd || containsSameData packet txPacket
    let s := { s with
      lastInputDatarate := datarate
      lastInputProgressTime := now
      lastInputProgressPosition := position }
    let timePosition := clockNow - s.txStartClockTime
    let s := { s with
      lastTxProgressTime := now
      lastTxProgressPosition := Int.floor ((s.txDatarate.getD 0) * timePosition) }
    match isPacketUnchangedSinceLastProgress with
    | true =>
      let s := scheduleTxEndTimer s txSig
      let s := scheduleBufferUnderrunTimer s
      .ok (s, [.packetDeleted packet])
    | false =>
      let signal := encodePacket (s.txDatarate.getD 0) packet
      let s := { s with txSignal := some signal }
      let outs := [TxOutput.signalProgress signal s.lastTxProgressPosition timePosition]
      let s := scheduleTxEndTimer s signal
      let s := scheduleBufferUnderrunTimer s
      .ok (s, outs)

/-- Clearing of the internal state common to `endTx` and `abortTx`
(step "clear internal state"): every position, time and rate field is
reset to its sentinel unset value and the signal slot is emptied. -/
def clearTxState (s : TxState) : TxState :=
  { s with
    txSignal := none
    txDatarate := none
    txStartTime := -1
    txStartClockTime := -1
    lastTxProgressTime := -1
    lastTxProgressPosition := -1
    lastInputDatarate := none
    lastInputProgressTime := -1
    lastInputProgressPosition := -1 }

/-- `StreamThroughTransmitter::endTx`. -/
def endTx (s : TxState) : Except String (TxState × List TxOutput) :=
  match s.txSignal with
  | none => .error "ASSERT isTransmitting"
  | some txSig =>
    let packet := txSig.packet
    .ok (clearTxState s,
      [.packetProcessed packet, .transmissionEnded txSig, .sendSignalEnd txSig])

/-- `StreamThroughTransmitter::abortTx`: truncate the in-flight packet to
the bits actually delivered, mark it errored, re-encode with the elapsed
duration, emit the ended notification and clear state. -/
def abortTx (s : TxState) (now : ℚ) : Except String (TxState × List TxOutput) :=
  match s.txSignal with
  | none => .error "ASSERT isTransmitting"
  | some txSig =>
    let packet := txSig.packet
    let timePosition := now - s.txStartTime
    let dataPosition : ℤ := Int.floor ((s.txDatarate.getD 0) * timePosition)
    let packet := eraseAtBack packet ((packet.totalLength : ℤ) - dataPosition)
    let packet := { packet with bitError := true }
    let signal := { encodePacket (s.txDatarate.getD 0) packet with duration := timePosition }
    .ok (clearTxState s,
      [.packetProcessed packet, .transmissionEnded signal, .sendSignalEnd signal])

/-- The self-messages the transmitter owns. -/
inductive TxMessage where
  | txEndTimerMsg
  | bufferUnderrunTimerMsg
deriving DecidableEq, Repr

/-- `StreamThroughTransmitter::handleMessageWhenUp` restricted to the two
timers the module owns: the end timer triggers `endTx`, the buffer
underrun timer throws `cRuntimeError("Buffer underrun during
transmission")`. -/
def handleMessageWhenUp (s : TxState) (m : TxMessage) :
    Except String (TxState × List TxOutput) :=
  match m with
  | .txEndTimerMsg => endTx s
  | .bufferUnderrunTimerMsg => .error "Buffer underrun during transmission"

/-- `StreamThroughTransmitter::pushPacketStart`. -/
def pushPacketStart (s : TxState) (packet : Packet) (datarate : Option ℚ)
    (now clockNow cfgRate : ℚ) : Except String (TxState × List TxOutput) :=
  startTx s packet datarate 0 now clockNow cfgRate

/-- `StreamThroughTransmitter::pushPacketEnd`. -/
def pushPacketEnd (s : TxState) (packet : Packet) (now clockNow : ℚ) :
    Except String (TxState × List TxOutput) :=
  if s.txSignal = none then .error "ASSERT txSignal != nullptr" else
  progressTx s packet none (packet.totalLength : ℤ) now clockNow

/-- `StreamThroughTransmitter::pushPacketProgress`: dispatch on the
current state — progress when transmitting, start otherwise. -/
def pushPacketProgress (s : TxState) (packet : Packet) (datarate : Option ℚ)
    (position : ℤ) (now clockNow cfgRate : ℚ) :
    Except String (TxState × List TxOutput) :=
  if isTransmitting s then
    progressTx s packet datarate position now clockNow
  else
    startTx s packet datarate position now clockNow cfgRate

end StreamThroughTransmitter

namespace PathVisualizerBase

/-- An animation position: the three time axes the fade-out mode can
select among (`getSimulationTime`, `getAnimationTime`, `getRealTime`). -/
structure AnimationPosition where
  simulationTime : ℚ
  animationTime : ℚ
  realTime : ℚ
deriving DecidableEq, Repr

/-- A sub-chunk of a traced packet: its chunk id and its length in bits
(`chunk->getChunkLength()`).  `mapChunks` over a packet is modelled by a
list of these. -/
structure Chunk where
  id : ℤ
  length : ℤ
deriving DecidableEq, Repr

/-- Modelled from the spec for the initial field values (the class
declaration lives in the header, not among the sampled sources): a
`PathVisualization` carries the exact node-id sequence, the session
label, cumulative `totalLength`, the `numPackets` counter (both starting
at zero on creation) and `lastUsageAnimationPosition`.  Mutation of the
fields is taken from `PathVisualizerBase.cc`. -/
structure PathVisualization where
  moduleIds : List ℤ
  label : String
  totalLength : ℤ
  numPackets : ℕ
  lastUsageAnimationPosition : AnimationPosition
deriving DecidableEq, Repr

/-- `PathVisualizerBase::createPathVisualization`. -/
def createPathVisualization (label : String) (path : List ℤ) : PathVisualization :=
  { moduleIds := path
    label := label
    totalLength := 0
    numPackets := 0
    lastUsageAnimationPosition := ⟨0, 0, 0⟩ }

/-- State of the tracker: the `(label, chunkId)`-keyed map of incomplete
paths and the multimap of completed path visualizations, the latter
modelled as a list (lookups match on the exact node-id sequence, which
the source makes unique by checking before insertion). -/
structure TrackerState where
  incompletePaths : List ((String × ℤ) × List ℤ)
  pathVisualizations : List PathVisualization
deriving DecidableEq, Repr

def initTrackerState : TrackerState := ⟨[], []⟩

/-- `PathVisualizerBase::getIncompletePath`. -/
def getIncompletePath (s : TrackerState) (label : String) (chunkId : ℤ) :
    Option (List ℤ) :=
  (s.incompletePaths.find? (fun kv => kv.1 = (label, chunkId))).map (·.2)

/-- The body of `addToIncompletePath`: append the node id unless it equals
the last recorded hop. -/
def appendHop (moduleIds : List ℤ) (moduleId : ℤ) : List ℤ :=
  if moduleIds.getLast? = some moduleId then moduleIds else moduleIds ++ [moduleId]

/-- Update (or default-create, as `operator[]` does) the entry at a key of
an association list. -/
def assocUpdate (l : List ((String × ℤ) × List ℤ)) (k : String × ℤ)
    (f : List ℤ → List ℤ) : List ((String × ℤ) × List ℤ) :=
  match l with
  | [] => [(k, f [])]
  | (k', v) :: rest =>
    if k' = k then (k', f v) :: rest else (k', v) :: assocUpdate rest k f

/-- `PathVisualizerBase::addToIncompletePath`. -/
def addToIncompletePath (s : TrackerState) (label : String) (chunkId : ℤ)
    (moduleId : ℤ) : TrackerState :=
  { s with incompletePaths :=
      assocUpdate s.incompletePaths (label, chunkId) (fun ids => appendHop ids moduleId) }

/-- `PathVisualizerBase::removeIncompletePath`: erase the entry. -/
def removeIncompletePath (s : TrackerState) (label : String) (chunkId : ℤ) :
    TrackerState :=
  { s with incompletePaths :=
      s.incompletePaths.filter (fun kv => ¬kv.1 = (label, chunkId)) }

/-- `PathVisualizerBase::getPathVisualization`: find the visualization
whose node-id sequence equals the path exactly. -/
def getPathVisualization (s : TrackerState) (path : List ℤ) :
    Option PathVisualization :=
  s.pathVisualizations.find? (fun v => v.moduleIds = path)

/-- `PathVisualizerBase::addPathVisualization`. -/
def addPathVisualization (s : TrackerState) (v : PathVisualization) : TrackerState :=
  { s with pathVisualizations := s.pathVisualizations ++ [v] }

/-- Apply an update to the (unique) visualization with the given node-id
sequence. -/
def updatePathVisualization (s : TrackerState) (path : List ℤ)
    (f : PathVisualization → PathVisualization) : TrackerState :=
  { s with pathVisualizations :=
      s.pathVisualizations.map (fun v => if v.moduleIds = path then f v else v) }

/-- `PathVisualizerBase::processPathStart`: per chunk, discard any stale
incomplete path for the key and open a fresh one at the node. -/
def processPathStart (s : TrackerState) (networkNode : ℤ) (label : String)
    (chunks : List Chunk) : TrackerState :=
  chunks.foldl (fun s c =>
    let s :=
      if (getIncompletePath s label c.id).isSome then
        removeIncompletePath s label c.id
      else s
    addToIncompletePath s label c.id networkNode) s

/-- `PathVisualizerBase::processPathElement`: per chunk, extend the
incomplete path when one exists, otherwise ignore. -/
def processPathElement (s : TrackerState) (networkNode : ℤ) (label : String)
    (chunks : List Chunk) : TrackerState :=
  chunks.foldl (fun s c =>
    if (getIncompletePath s label c.id).isSome then
      addToIncompletePath s label c.id networkNode
    else s) s

/-- The per-chunk body of `processPathEnd`'s `mapChunks` loop, threading
the set of visualizations touched this round (identified by their node-id
sequence). -/
def processPathEndChunk (label : String) (networkNode : ℤ)
    (acc : TrackerState × List (List ℤ)) (c : Chunk) :
    TrackerState × List (List ℤ) :=
  let (s, touched) := acc
  match getIncompletePath s label c.id with
  | none => (s, touched)
  | some _ =>
    let s := addToIncompletePath s label c.id networkNode
    let path := (getIncompletePath s label c.id).getD []
    let (s, touched) :=
      if 1 < path.length then
        let s :=
          if (getPathVisualization s path).isSome then s
          else addPathVisualization s (createPathVisualization label path)
        let s := updatePathVisualization s path
          (fun v => { v with totalLength := v.totalLength + c.length })
        (s, if path ∈ touched then touched else touched ++ [path])
      else (s, touched)
    (removeIncompletePath s label c.id, touched)

/-- `PathVisualizerBase::processPathEnd`: per chunk close the incomplete
path into a visualization, then — once per packet — bump `numPackets` and
refresh the last-usage timestamp of every visualization touched. -/
def processPathEnd (s : TrackerState) (networkNode : ℤ) (label : String)
    (chunks : List Chunk) (now : AnimationPosition) : TrackerState :=
  let (s, touched) := chunks.foldl (processPathEndChunk label networkNode) (s, [])
  touched.foldl (fun s path =>
    updatePathVisualization s path (fun v =>
      { v with numPackets := v.numPackets + 1, lastUsageAnimationPosition := now })) s

/-- `refreshDisplay`'s per-visualization idle time under the configured
fade-out mode; `none` models the `cRuntimeError` on an unknown mode. -/
def fadeDelta (fadeOutMode : String) (current last : AnimationPosition) : Option ℚ :=
  if fadeOutMode = "simulationTime" then some (current.simulationTime - last.simulationTime)
  else if fadeOutMode = "animationTime" then some (current.animationTime - last.animationTime)
  else if fadeOutMode = "realTime" then some (current.realTime - last.realTime)
  else none

/-- The loop of `PathVisualizerBase::refreshDisplay`: returns the retained
visualizations with the alpha set on each, and the removed ones. -/
def refreshLoop (fadeOutMode : String) (fadeOutTime : ℚ)
    (current : AnimationPosition) :
    List PathVisualization →
    Except String (List (PathVisualization × ℚ) × List PathVisualization)
  | [] => .ok ([], [])
  | v :: rest =>
    match fadeDelta fadeOutMode current v.lastUsageAnimationPosition with
    | none => .error "Unknown fadeOutMode"
    | some delta =>
      match refreshLoop fadeOutMode fadeOutTime current rest with
      | .error e => .error e
      | .ok (kept, removed) =>
        if delta > fadeOutTime then .ok (kept, v :: removed)
        else .ok ((v, 1 - delta / fadeOutTime) :: kept, removed)

/-- `PathVisualizerBase::refreshDisplay`: when fade-out is enabled,
compute each visualization's idle time; those over the threshold are
removed and released, the rest retained with alpha `1 - delta/threshold`.
Returns the new state, the retained visualizations with their alphas, and
the removed ones. -/
def refreshDisplay (s : TrackerState) (fadeOutMode : String) (fadeOutTime : ℚ)
    (current : AnimationPosition) :
    Except String (TrackerState × List (PathVisualization × ℚ) × List PathVisualization) :=
  if fadeOutTime > 0 then
    match refreshLoop fadeOutMode fadeOutTime current s.pathVisualizations with
    | .error e => .error e
    | .ok (kept, removed) =>
      .ok ({ s with pathVisualizations := kept.map (·.1) }, kept, removed)
  else
    .ok (s, [], [])

/-- The idle time of a visualization under the configured fade-out mode
(total, for use in statements; only read where the mode is valid). -/
def idleDelta (fadeOutMode : String) (current : AnimationPosition)
    (v : PathVisualization) : ℚ :=
  (fadeDelta fadeOutMode current v.lastUsageAnimationPosition).getD 0

/-- The visualizations a refresh retains, each with its fade alpha. -/
def keptAfterRefresh (fadeOutMode : String) (fadeOutTime : ℚ)
    (current : AnimationPosition) (l : List PathVisualization) :
    List (PathVisualization × ℚ) :=
  l.filterMap (fun v =>
    if fadeOutTime < idleDelta fadeOutMode current v then none
    else some (v, 1 - idleDelta fadeOutMode current v / fadeOutTime))

/-- The visualizations a refresh removes and releases. -/
def removedAfterRefresh (fadeOutMode : String) (fadeOutTime : ℚ)
    (current : AnimationPosition) (l : List PathVisualization) :
    List PathVisualization :=
  l.filter (fun v => decide (fadeOutTime < idleDelta fadeOutMode current v))

theorem fadeDelta_isSome (fadeOutMode : String) (current last : AnimationPosition)
    (hmode : fadeOutMode = "simulationTime" ∨ fadeOutMode = "animationTime" ∨
      fadeOutMode = "realTime") :
    ∃ d, fadeDelta fadeOutMode current last = some d := by
  rcases hmode with h | h | h <;> subst h <;> simp [fadeDelta]

theorem refreshLoop_eq_filter (fadeOutMode : String) (fadeOutTime : ℚ)
    (current : AnimationPosition)
    (hmode : fadeOutMode = "simulationTime" ∨ fadeOutMode = "animationTime" ∨
      fadeOutMode = "realTime") :
    ∀ l : List PathVisualization,
    refreshLoop fadeOutMode fadeOutTime current l =
      .ok (keptAfterRefresh fadeOutMode fadeOutTime current l,
           removedAfterRefresh fadeOutMode fadeOutTime current l) := by
  intro l
  induction l with
  | nil => rfl
  | cons v rest ih =>
    obtain ⟨d, hd⟩ := fadeDelta_isSome fadeOutMode current
      v.lastUsageAnimationPosition hmode
    simp only [refreshLoop, hd, ih, keptAfterRefresh, removedAfterRefresh,
      List.filterMap_cons, List.filter_cons, idleDelta, Option.getD_some]
    by_cases h : fadeOutTime < d
    · simp [h]
    · simp [h]

/-- C8: on a display refresh with fade-out enabled, every visualization
whose idle time (under the configured clock mode) strictly exceeds the
threshold is removed and released, and every other one is retained with
opacity `1 - delta/threshold` — in particular retained at opacity exactly
0 when the idle time equals the threshold. -/
theorem refreshDisplay_fade_removal_and_opacity (s : TrackerState)
    (fadeOutMode : String) (fadeOutTime : ℚ) (current : AnimationPosition)
    (hT : 0 < fadeOutTime)
    (hmode : fadeOutMode = "simulationTime" ∨ fadeOutMode = "animationTime" ∨
      fadeOutMode = "realTime") :
    refreshDisplay s fadeOutMode fadeOutTime current =
      .ok ({ s with pathVisualizations :=
              (keptAfterRefresh fadeOutMode fadeOutTime current
                s.pathVisualizations).map Prod.fst },
           keptAfterRefresh fadeOutMode fadeOutTime current s.pathVisualizations,
           removedAfterRefresh fadeOutMode fadeOutTime current s.pathVisualizations) ∧
    (∀ v ∈ s.pathVisualizations,
      fadeOutTime < idleDelta fadeOutMode current v →
      v ∈ removedAfterRefresh fadeOutMode fadeOutTime current s.pathVisualizations ∧
      v ∉ (keptAfterRefresh fadeOutMode fadeOutTime current
            s.pathVisualizations).map Prod.fst) ∧
    (∀ v ∈ s.pathVisualizations,
      idleDelta fadeOutMode current v ≤ fadeOutTime →
      (v, 1 - idleDelta fadeOutMode current v / fadeOutTime) ∈
        keptAfterRefresh fadeOutMode fadeOutTime current s.pathVisualizations) ∧
    (∀ v ∈ s.pathVisualizations,
      idleDelta fadeOutMode current v = fadeOutTime →
      (v, 0) ∈ keptAfterRefresh fadeOutMode fadeOutTime current s.pathVisualizations) := by
  refine ⟨?_, ?_, ?_, ?_⟩
  · simp only [refreshDisplay, hT, if_true,
      refreshLoop_eq_filter fadeOutMode fadeOutTime current hmode]
  · intro v hv hgt
    constructor
    · simp only [removedAfterRefresh, List.mem_filter]
      exact ⟨hv, decide_eq_true hgt⟩
    · intro hmem
      simp only [List.mem_map] at hmem
      obtain ⟨⟨w, a⟩, hw, hfst⟩ := hmem
      simp only [keptAfterRefresh, List.mem_filterMap] at hw
      obtain ⟨u, hu, hif⟩ := hw
      by_cases h : fadeOutTime < idleDelta fadeOutMode current u
      · simp [h] at hif
      · rw [if_neg h] at hif
        have huw : u = w := congrArg Prod.fst (Option.some.inj hif)
        simp only at hfst
        rw [huw, hfst] at h
        exact h hgt
  · intro v hv hle
    simp only [keptAfterRefresh, List.mem_filterMap]
    exact ⟨v, hv, by rw [if_neg (not_lt.mpr hle)]⟩
  · intro v hv heq
    simp only [keptAfterRefresh, List.mem_filterMap]
    refine ⟨v, hv, ?_⟩
    rw [if_neg (not_lt.mpr (le_of_eq heq)), heq, div_self (ne_of_gt hT)]
    simp

def sampleViz1 : PathVisualization := ⟨[1, 2], "L", 8, 1, ⟨0, 0, 0⟩⟩

def sampleViz2 : PathVisualization := ⟨[1, 3], "M", 8, 1, ⟨-1, -1, -1⟩⟩

def sampleRefreshState : TrackerState := ⟨[], [sampleViz1, sampleViz2]⟩

theorem refreshDisplay_fade_witness :
    refreshDisplay sampleRefreshState "simulationTime" 1 ⟨1, 1, 1⟩ =
      .ok ({ sampleRefreshState with pathVisualizations :=
              (keptAfterRefresh "simulationTime" 1 ⟨1, 1, 1⟩
                sampleRefreshState.pathVisualizations).map Prod.fst },
           keptAfterRefresh "simulationTime" 1 ⟨1, 1, 1⟩
             sampleRefreshState.pathVisualizations,
           removedAfterRefresh "simulationTime" 1 ⟨1, 1, 1⟩
             sampleRefreshState.pathVisualizations) ∧
    (sampleViz1, 0) ∈ keptAfterRefresh "simulationTime" 1 ⟨1, 1, 1⟩
      sampleRefreshState.pathVisualizations ∧
    sampleViz2 ∈ removedAfterRefresh "simulationTime" 1 ⟨1, 1, 1⟩
      sampleRefreshState.pathVisualizations :=
  ⟨(refreshDisplay_fade_removal_and_opacity sampleRefreshState "simulationTime" 1
      ⟨1, 1, 1⟩ (by norm_num) (Or.inl rfl)).1,
   (refreshDisplay_fade_removal_and_opacity sampleRefreshState "simulationTime" 1
      ⟨1, 1, 1⟩ (by norm_num) (Or.inl rfl)).2.2.2 sampleViz1
      (List.mem_cons_self _ _)
      (by norm_num [idleDelta, fadeDelta, sampleViz1]),
   ((refreshDisplay_fade_removal_and_opacity sampleRefreshState "simulationTime" 1
      ⟨1, 1, 1⟩ (by norm_num) (Or.inl rfl)).2.1 sampleViz2
      (List.mem_cons_of_mem _ (List.mem_cons_self _ _))
      (by norm_num [idleDelta, fadeDelta, sampleViz2])).1⟩

/-- The three path-tracking events the tracker subscribes to. -/
inductive TrackerEvent where
  | startEv (networkNode : ℤ) (label : String) (chunks : List Chunk)
  | elementEv (networkNode : ℤ) (label : String) (chunks : List Chunk)
  | endEv (networkNode : ℤ) (label : String) (chunks : List Chunk) (now : AnimationPosition)
deriving DecidableEq, Repr

/-- C5: for start(A=1, label "L", chunk 0), element(B=2), end(C=3) on an
empty tracker, exactly one PathVisualization results, with node sequence
[1,2,3], `numPackets = 1` and `totalLength` equal to the chunk's length;
a second identical cycle increments `numPackets` to 2 and accumulates
`totalLength` without creating a duplicate; and for a packet of two
chunks completing the same path, the packet counter and last-usage
timestamp are updated once per completing packet, not once per chunk. -/
theorem processPathEnd_counts_per_packet (len l0 l1 : ℤ)
    (t1 t2 : AnimationPosition) :
    (processPathEnd (processPathElement (processPathStart initTrackerState 1 "L"
        [⟨0, len⟩]) 2 "L" [⟨0, len⟩]) 3 "L" [⟨0, len⟩] t1).pathVisualizations
      = [{ moduleIds := [1, 2, 3], label := "L", totalLength := len, numPackets := 1,
           lastUsageAnimationPosition := t1 }] ∧
    (processPathEnd (processPathElement (processPathStart
        (processPathEnd (processPathElement (processPathStart initTrackerState 1 "L"
          [⟨0, len⟩]) 2 "L" [⟨0, len⟩]) 3 "L" [⟨0, len⟩] t1)
        1 "L" [⟨0, len⟩]) 2 "L" [⟨0, len⟩]) 3 "L" [⟨0, len⟩] t2).pathVisualizations
      = [{ moduleIds := [1, 2, 3], label := "L", totalLength := len + len, numPackets := 2,
           lastUsageAnimationPosition := t2 }] ∧
    (processPathEnd (processPathElement (processPathStart initTrackerState 1 "L"
        [⟨0, l0⟩, ⟨1, l1⟩]) 2 "L" [⟨0, l0⟩, ⟨1, l1⟩]) 3 "L" [⟨0, l0⟩, ⟨1, l1⟩]
        t1).pathVisualizations
      = [{ moduleIds := [1, 2, 3], label := "L", totalLength := l0 + l1, numPackets := 1,
           lastUsageAnimationPosition := t1 }] := by
  refine ⟨?_, ?_, ?_⟩ <;>
    simp [processPathStart, processPathElement, processPathEnd, processPathEndChunk,
      getIncompletePath, addToIncompletePath, removeIncompletePath, assocUpdate,
      appendHop, getPathVisualization, addPathVisualization, updatePathVisualization,
      createPathVisualization, initTrackerState]

def applyTrackerEvent (s : TrackerState) : TrackerEvent → TrackerState
  | .startEv n l cs => processPathStart s n l cs
  | .elementEv n l cs => processPathElement s n l cs
  | .endEv n l cs now => processPathEnd s n l cs now

def runTracker (events : List TrackerEvent) : TrackerState :=
  events.foldl applyTrackerEvent initTrackerState

/-- Every incomplete path is a sequence with no two consecutive equal
node ids. -/
def consecDistinct (s : TrackerState) : Prop :=
  ∀ kv ∈ s.incompletePaths, List.Chain' (fun a b : ℤ => a ≠ b) kv.2

theorem chain_ne_appendHop (ids : List ℤ) (n : ℤ)
    (h : List.Chain' (fun a b : ℤ => a ≠ b) ids) :
    List.Chain' (fun a b : ℤ => a ≠ b) (appendHop ids n) := by
  unfold appendHop
  split
  · exact h
  · next hlast =>
    rw [List.chain'_append]
    refine ⟨h, List.chain'_singleton n, ?_⟩
    intro x hx y hy
    simp only [List.head?_cons, Option.mem_def, Option.some.injEq] at hy
    subst hy
    intro hxy
    subst hxy
    exact hlast hx

theorem assocUpdate_values (P : List ℤ → Prop) (l : List ((String × ℤ) × List ℤ))
    (k : String × ℤ) (f : List ℤ → List ℤ)
    (hl : ∀ kv ∈ l, P kv.2) (hf : ∀ v, P v → P (f v)) (hnil : P (f [])) :
    ∀ kv ∈ assocUpdate l k f, P kv.2 := by
  induction l with
  | nil =>
    intro kv hkv
    simp only [assocUpdate, List.mem_singleton] at hkv
    subst hkv
    exact hnil
  | cons hd tl ih =>
    obtain ⟨k', v⟩ := hd
    intro kv hkv
    simp only [assocUpdate] at hkv
    split at hkv
    · rcases List.mem_cons.mp hkv with h1 | h1
      · subst h1
        exact hf v (hl (k', v) (List.mem_cons_self _ _))
      · exact hl kv (List.mem_cons_of_mem _ h1)
    · rcases List.mem_cons.mp hkv with h1 | h1
      · subst h1
        exact hl (k', v) (List.mem_cons_self _ _)
      · exact ih (fun kv' hkv' => hl kv' (List.mem_cons_of_mem _ hkv')) kv h1

theorem consecDistinct_addToIncompletePath (s : TrackerState) (label : String)
    (chunkId moduleId : ℤ) (h : consecDistinct s) :
    consecDistinct (addToIncompletePath s label chunkId moduleId) := by
  intro kv hkv
  refine assocUpdate_values _ s.incompletePaths (label, chunkId) _ h
    (fun v hv => chain_ne_appendHop v moduleId hv) ?_ kv hkv
  simp [appendHop]

theorem consecDistinct_removeIncompletePath (s : TrackerState) (label : String)
    (chunkId : ℤ) (h : consecDistinct s) :
    consecDistinct (removeIncompletePath s label chunkId) := by
  intro kv hkv
  exact h kv (List.mem_of_mem_filter hkv)

theorem consecDistinct_processPathStart (networkNode : ℤ) (label : String)
    (chunks : List Chunk) :
    ∀ s : TrackerState, consecDistinct s →
    consecDistinct (processPathStart s networkNode label chunks) := by
  induction chunks with
  | nil => intro s h; exact h
  | cons c rest ih =>
    intro s h
    refine ih _ ?_
    refine consecDistinct_addToIncompletePath _ label c.id networkNode ?_
    split
    · exact consecDistinct_removeIncompletePath s label c.id h
    · exact h

theorem consecDistinct_processPathElement (networkNode : ℤ) (label : String)
    (chunks : List Chunk) :
    ∀ s : TrackerState, consecDistinct s →
    consecDistinct (processPathElement s networkNode label chunks) := by
  induction chunks with
  | nil => intro s h; exact h
  | cons c rest ih =>
    intro s h
    refine ih _ ?_
    dsimp only
    split
    · exact consecDistinct_addToIncompletePath s label c.id networkNode h
    · exact h

theorem processPathEndChunk_incomplete (label : String) (networkNode : ℤ)
    (s : TrackerState) (touched : List (List ℤ)) (c : Chunk) :
    (processPathEndChunk label networkNode (s, touched) c).1.incompletePaths
        = s.incompletePaths ∨
    (processPathEndChunk label networkNode (s, touched) c).1.incompletePaths
        = (removeIncompletePath (addToIncompletePath s label c.id networkNode)
            label c.id).incompletePaths := by
  rcases hlook : getIncompletePath s label c.id with _ | path
  · left
    simp only [processPathEndChunk, hlook]
  · right
    simp only [processPathEndChunk, hlook]
    split
    · split <;> rfl
    · rfl

theorem consecDistinct_processPathEndChunk (label : String) (networkNode : ℤ)
    (s : TrackerState) (touched : List (List ℤ)) (c : Chunk)
    (h : consecDistinct s) :
    consecDistinct (processPathEndChunk label networkNode (s, touched) c).1 := by
  intro kv hkv
  rcases processPathEndChunk_incomplete label networkNode s touched c with
    heq | heq
  · rw [heq] at hkv
    exact h kv hkv
  · rw [heq] at hkv
    exact consecDistinct_removeIncompletePath _ label c.id
      (consecDistinct_addToIncompletePath s label c.id networkNode h) kv hkv

theorem consecDistinct_processPathEnd (networkNode : ℤ) (label : String)
    (chunks : List Chunk) (now : AnimationPosition) (s : TrackerState)
    (h : consecDistinct s) :
    consecDistinct (processPathEnd s networkNode label chunks now) := by
  have hfold : ∀ (cs : List Chunk) (acc : TrackerState × List (List ℤ)),
      consecDistinct acc.1 →
      consecDistinct (cs.foldl (processPathEndChunk label networkNode) acc).1 := by
    intro cs
    induction cs with
    | nil => intro acc hacc; exact hacc
    | cons c rest ih =>
      intro acc hacc
      obtain ⟨s0, t0⟩ := acc
      exact ih _ (consecDistinct_processPathEndChunk label networkNode s0 t0 c hacc)
  have hupd : ∀ (paths : List (List ℤ)) (s0 : TrackerState), consecDistinct s0 →
      consecDistinct (paths.foldl (fun s1 path =>
        updatePathVisualization s1 path (fun v =>
          { v with numPackets := v.numPackets + 1,
                   lastUsageAnimationPosition := now })) s0) := by
    intro paths
    induction paths with
    | nil => intro s0 h0; exact h0
    | cons p rest ih =>
      intro s0 h0
      exact ih _ (fun kv hkv => h0 kv hkv)
  exact hupd _ _ (hfold chunks (s, []) h)

/-- C9: in every tracker state reachable by a sequence of start, element
and end events, every stored incomplete path has no two consecutive equal
node identifiers — a hop equal to the last recorded one is never appended
twice. -/
theorem incompletePaths_no_consecutive_duplicates (events : List TrackerEvent) :
    ∀ kv ∈ (runTracker events).incompletePaths,
      List.Chain' (fun a b : ℤ => a ≠ b) kv.2 := by
  suffices h : consecDistinct (runTracker events) from h
  have hstep : ∀ (s : TrackerState) (e : TrackerEvent), consecDistinct s →
      consecDistinct (applyTrackerEvent s e) := by
    intro s e hs
    cases e with
    | startEv n l cs => exact consecDistinct_processPathStart n l cs s hs
    | elementEv n l cs => exact consecDistinct_processPathElement n l cs s hs
    | endEv n l cs now => exact consecDistinct_processPathEnd n l cs now s hs
  have hrun : ∀ (evs : List TrackerEvent) (s : TrackerState), consecDistinct s →
      consecDistinct (evs.foldl applyTrackerEvent s) := by
    intro evs
    induction evs with
    | nil => intro s hs; exact hs
    | cons e rest ih => intro s hs; exact ih _ (hstep s e hs)
  exact hrun events initTrackerState (fun kv hkv => by simp [initTrackerState] at hkv)

theorem incompletePaths_no_consecutive_duplicates_witness :
    List.Chain' (fun a b : ℤ => a ≠ b) ((("L", (0 : ℤ)), [(5 : ℤ)])).2 :=
  incompletePaths_no_consecutive_duplicates [.startEv 5 "L" [⟨0, 1⟩]]
    (("L", (0 : ℤ)), [(5 : ℤ)]) (by decide)

end PathVisualizerBase

namespace StreamThroughTransmitter

/-! Concrete sample states used to instantiate the theorems. -/

def samplePacket : Packet := ⟨List.replicate 4 true, false⟩

def sampleSignal : Signal := encodePacket 100 samplePacket

/-- The state right after `startTx` on a fresh transmitter: packet of 4
bits, input datarate 200, committed datarate 100, at time 0 (200 is not
below 100, so the underrun timer is not scheduled). -/
def sampleTxState : TxState :=
  { txSignal := some sampleSignal
    txDatarate := some 100
    txStartTime := 0
    txStartClockTime := 0
    lastTxProgressTime := 0
    lastTxProgressPosition := 0
    lastInputDatarate := some 200
    lastInputProgressTime := 0
    lastInputProgressPosition := 0
    txEndTimer := some (0 + sampleSignal.duration)
    bufferUnderrunTimer := none }

/-- All position, time and rate fields of a transmission hold their
sentinel unset values and the signal slot is empty. -/
def sentinelCleared (s : TxState) : Prop :=
  s.txSignal = none ∧ s.txDatarate = none ∧ s.txStartTime = -1 ∧
  s.txStartClockTime = -1 ∧ s.lastTxProgressTime = -1 ∧
  s.lastTxProgressPosition = -1 ∧ s.lastInputDatarate = none ∧
  s.lastInputProgressTime = -1 ∧ s.lastInputProgressPosition = -1

/-- C2: if the buffer underrun timer fires while a transmission is in
progress, `handleMessageWhenUp` raises the hard runtime error "Buffer
underrun during transmission"; the condition is never retried, masked or
recovered — the handler returns the error unconditionally. -/
theorem bufferUnderrunTimer_firing_is_fatal (s : TxState)
    (_h : isTransmitting s = true) :
    handleMessageWhenUp s .bufferUnderrunTimerMsg =
      .error "Buffer underrun during transmission" := rfl

theorem bufferUnderrunTimer_firing_is_fatal_witness :
    isTransmitting sampleTxState = true ∧
    handleMessageWhenUp sampleTxState .bufferUnderrunTimerMsg =
      .error "Buffer underrun during transmission" :=
  ⟨by decide, bufferUnderrunTimer_firing_is_fatal sampleTxState (by decide)⟩

/-- C6: every violated state precondition of the transmitter state
machine — `startTx` while a transmission is active, or `progressTx`,
`endTx`, `abortTx` while idle — fails fast with an assertion error at
entry, never silently recovering. -/
theorem transmitter_state_preconditions_fail_fast (s : TxState)
    (packet : Packet) (datarate : Option ℚ) (position : ℤ)
    (now clockNow cfgRate : ℚ) :
    (isTransmitting s = true →
      startTx s packet datarate position now clockNow cfgRate =
        .error "ASSERT !isTransmitting") ∧
    (isTransmitting s = false →
      progressTx s packet datarate position now clockNow =
        .error "ASSERT isTransmitting" ∧
      endTx s = .error "ASSERT isTransmitting" ∧
      abortTx s now = .error "ASSERT isTransmitting") := by
  constructor
  · intro h
    simp [startTx, h]
  · intro h
    have hnone : s.txSignal = none := by
      simpa [isTransmitting, Option.isSome_iff_ne_none] using h
    refine ⟨?_, ?_, ?_⟩ <;> simp [progressTx, endTx, abortTx, hnone]

theorem transmitter_state_preconditions_fail_fast_witness :
    (isTransmitting sampleTxState = true ∧
      startTx sampleTxState samplePacket (some 200) 0 1 1 100 =
        .error "ASSERT !isTransmitting") ∧
    (isTransmitting initTxState = false ∧
      progressTx initTxState samplePacket (some 200) 0 1 1 =
        .error "ASSERT isTransmitting" ∧
      endTx initTxState = .error "ASSERT isTransmitting" ∧
      abortTx initTxState 1 = .error "ASSERT isTransmitting") :=
  ⟨⟨by decide,
    (transmitter_state_preconditions_fail_fast sampleTxState samplePacket
      (some 200) 0 1 1 100).1 (by decide)⟩,
   ⟨by decide,
    (transmitter_state_preconditions_fail_fast initTxState samplePacket
      (some 200) 0 1 1 100).2 (by decide)⟩⟩

/-- C10: `pushPacketProgress` never fails when no transmission is active:
it behaves exactly as `startTx` at the given datarate and position (and
succeeds, since the start precondition holds), and it dispatches to the
progress transition exactly when a transmission is already active. -/
theorem pushPacketProgress_starts_when_idle (s : TxState) (packet : Packet)
    (datarate : Option ℚ) (position : ℤ) (now clockNow cfgRate : ℚ) :
    (isTransmitting s = false →
      pushPacketProgress s packet datarate position now clockNow cfgRate =
        startTx s packet datarate position now clockNow cfgRate ∧
      ∃ s' outs, pushPacketProgress s packet datarate position now clockNow cfgRate =
        .ok (s', outs)) ∧
    (isTransmitting s = true →
      pushPacketProgress s packet datarate position now clockNow cfgRate =
        progressTx s packet datarate position now clockNow) := by
  constructor
  · intro h
    have heq : pushPacketProgress s packet datarate position now clockNow cfgRate =
        startTx s packet datarate position now clockNow cfgRate := by
      simp [pushPacketProgress, h]
    refine ⟨heq, ?_⟩
    rw [heq, startTx, if_neg (by simp [h])]
    exact ⟨_, _, rfl⟩
  · intro h
    simp [pushPacketProgress, h]

theorem pushPacketProgress_starts_when_idle_witness :
    (pushPacketProgress initTxState samplePacket (some 200) 0 0 0 100 =
      startTx initTxState samplePacket (some 200) 0 0 0 100 ∧
     ∃ s' outs, pushPacketProgress initTxState samplePacket (some 200) 0 0 0 100 =
      .ok (s', outs)) ∧
    isTransmitting initTxState = false :=
  ⟨(pushPacketProgress_starts_when_idle initTxState samplePacket
      (some 200) 0 0 0 100).1 (by decide), by decide⟩

/-- C7: `isTransmitting` holds exactly when the single in-flight signal
slot `txSignal` is non-null (hence at most one transmission is active at
a time), and after every successful `endTx` or `abortTx` all position,
time and rate fields are reset to their sentinel unset values and the
signal slot is emptied. -/
theorem transmitter_signal_invariant_and_sentinel_reset (s : TxState) (now : ℚ) :
    (isTransmitting s = true ↔ s.txSignal ≠ none) ∧
    (∀ s' outs, endTx s = .ok (s', outs) → sentinelCleared s') ∧
    (∀ s' outs, abortTx s now = .ok (s', outs) → sentinelCleared s') := by
  refine ⟨by simp [isTransmitting, Option.isSome_iff_ne_none], ?_, ?_⟩
  · intro s' outs h
    cases hsig : s.txSignal with
    | none => simp [endTx, hsig] at h
    | some txSig =>
      simp only [endTx, hsig, Except.ok.injEq, Prod.mk.injEq] at h
      obtain ⟨h1, -⟩ := h
      subst h1
      simp [sentinelCleared, clearTxState]
  · intro s' outs h
    cases hsig : s.txSignal with
    | none => simp [abortTx, hsig] at h
    | some txSig =>
      simp only [abortTx, hsig, Except.ok.injEq, Prod.mk.injEq] at h
      obtain ⟨h1, -⟩ := h
      subst h1
      simp [sentinelCleared, clearTxState]

/-- C3: aborting an active transmission truncates the delivered content
from the back to exactly `floor(txDatarate * elapsed)` bits, marks the
truncated packet as containing a bit error, sets the re-encoded signal's
duration to the elapsed time, and the emitted length never exceeds the
original packet length. -/
theorem abortTx_truncates_marks_error_and_bounds_length (s : TxState)
    (txSig : Signal) (rate now : ℚ)
    (hsig : s.txSignal = some txSig) (hrate : s.txDatarate = some rate)
    (h0 : 0 ≤ Int.floor (rate * (now - s.txStartTime)))
    (hle : Int.floor (rate * (now - s.txStartTime)) ≤ (txSig.packet.totalLength : ℤ)) :
    ∃ p' sig', abortTx s now =
        .ok (clearTxState s,
          [.packetProcessed p', .transmissionEnded sig', .sendSignalEnd sig']) ∧
      (p'.totalLength : ℤ) = Int.floor (rate * (now - s.txStartTime)) ∧
      p'.bitError = true ∧
      sig'.packet = p' ∧
      sig'.duration = now - s.txStartTime ∧
      p'.totalLength ≤ txSig.packet.totalLength := by
  refine ⟨{ eraseAtBack txSig.packet
              ((txSig.packet.totalLength : ℤ) - Int.floor (rate * (now - s.txStartTime)))
            with bitError := true },
          { encodePacket rate
              { eraseAtBack txSig.packet
                  ((txSig.packet.totalLength : ℤ) - Int.floor (rate * (now - s.txStartTime)))
                with bitError := true }
            with duration := now - s.txStartTime },
          ?_, ?_, rfl, rfl, rfl, ?_⟩
  · simp [abortTx, hsig, hrate]
  · set d : ℤ := Int.floor (rate * (now - s.txStartTime)) with hd
    have hle' : d ≤ (txSig.packet.content.length : ℤ) := by
      simpa [Packet.totalLength] using hle
    simp only [eraseAtBack, Packet.totalLength, List.length_take]
    rw [min_eq_left (Nat.sub_le _ _)]
    omega
  · simp only [eraseAtBack, Packet.totalLength, List.length_take]
    exact min_le_right _ _

theorem abortTx_truncates_witness :
    (0 : ℤ) ≤ Int.floor ((100 : ℚ) * (1/50 - sampleTxState.txStartTime)) ∧
    ∃ p' sig', abortTx sampleTxState (1/50) =
        .ok (clearTxState sampleTxState,
          [.packetProcessed p', .transmissionEnded sig', .sendSignalEnd sig']) ∧
      (p'.totalLength : ℤ) = Int.floor ((100 : ℚ) * (1/50 - sampleTxState.txStartTime)) ∧
      p'.bitError = true ∧
      sig'.packet = p' ∧
      sig'.duration = 1/50 - sampleTxState.txStartTime ∧
      p'.totalLength ≤ sampleSignal.packet.totalLength :=
  ⟨by norm_num [sampleTxState],
   abortTx_truncates_marks_error_and_bounds_length sampleTxState sampleSignal
    100 (1/50) rfl rfl
    (by norm_num [sampleTxState])
    (by norm_num [sampleTxState, sampleSignal, encodePacket, samplePacket, Packet.totalLength])⟩

/-- C4: a progress call whose packet boundary coincides with the boundary
expected by linear extrapolation from the last observed input state (the
content being unchanged since the last progress call) emits no outbound
notification, deletes the incoming packet handle, and leaves the
transmission's signal, start times, committed datarate and end-timer
target unaltered. -/
theorem progressTx_unchanged_packet_is_silent (s : TxState) (txSig : Signal)
    (ri : ℚ) (packet : Packet) (datarate : Option ℚ) (position : ℤ)
    (now clockNow : ℚ)
    (hsig : s.txSignal = some txSig)
    (hri : s.lastInputDatarate = some ri)
    (hext : s.lastInputProgressPosition + Int.floor ((now - s.lastInputProgressTime) * ri)
      = (packet.totalLength : ℤ))
    (hlen : packet.totalLength = txSig.packet.totalLength)
    (hend : s.txEndTimer = some (s.txStartClockTime + txSig.duration)) :
    (∃ r, progressTx s packet datarate position now clockNow = .ok r) ∧
    (∀ s' outs, progressTx s packet datarate position now clockNow = .ok (s', outs) →
      outs = [.packetDeleted packet] ∧
      s'.txSignal = some txSig ∧
      s'.txEndTimer = s.txEndTimer ∧
      s'.txStartTime = s.txStartTime ∧
      s'.txStartClockTime = s.txStartClockTime ∧
      s'.txDatarate = s.txDatarate) := by
  have hunchanged :
      (s.lastInputDatarate.map
        (fun r => s.lastInputProgressPosition + Int.floor ((now - s.lastInputProgressTime) * r))
          == some (packet.totalLength : ℤ)
        && packet.totalLength == txSig.packet.totalLength) = true := by
    simp [hri, hext, hlen]
  constructor
  · simp only [progressTx, hsig]
    split
    · exact ⟨_, rfl⟩
    · exact ⟨_, rfl⟩
  · intro s' outs h
    simp only [progressTx, hsig] at h
    split at h
    next hcond =>
      simp only [Except.ok.injEq, Prod.mk.injEq] at h
      obtain ⟨h1, h2⟩ := h
      subst h1
      refine ⟨h2.symm, ?_, ?_, ?_, ?_, ?_⟩ <;>
        · simp only [scheduleBufferUnderrunTimer, scheduleTxEndTimer, hend]
          split <;> rfl
    next hcond =>
      rw [hunchanged] at hcond
      simp at hcond

theorem progressTx_unchanged_witness :
    (∃ r, progressTx sampleTxState samplePacket (some 200) 4 (1/50) (1/50) = .ok r) ∧
    (∀ s' outs,
      progressTx sampleTxState samplePacket (some 200) 4 (1/50) (1/50) = .ok (s', outs) →
      outs = [.packetDeleted samplePacket] ∧
      s'.txSignal = some sampleSignal ∧
      s'.txEndTimer = sampleTxState.txEndTimer ∧
      s'.txStartTime = sampleTxState.txStartTime ∧
      s'.txStartClockTime = sampleTxState.txStartClockTime ∧
      s'.txDatarate = sampleTxState.txDatarate) :=
  progressTx_unchanged_packet_is_silent sampleTxState sampleSignal 200
    samplePacket (some 200) 4 (1/50) (1/50)
    rfl rfl
    (by norm_num [sampleTxState, samplePacket, Packet.totalLength])
    rfl rfl

/-- The external stimuli of one transmitter lifecycle: a push start, a
push progress, or the firing of the transmission end timer. -/
inductive TxEvent where
  | evStart (packet : Packet) (datarate : Option ℚ) (position : ℤ) (now clockNow : ℚ)
  | evProgress (packet : Packet) (datarate : Option ℚ) (position : ℤ) (now clockNow : ℚ)
  | evEnd
deriving DecidableEq, Repr

def applyTxEvent (cfgRate : ℚ) (s : TxState) :
    TxEvent → Except String (TxState × List TxOutput)
  | .evStart packet datarate position now clockNow =>
    startTx s packet datarate position now clockNow cfgRate
  | .evProgress packet datarate position now clockNow =>
    progressTx s packet datarate position now clockNow
  | .evEnd => endTx s

def runTxEvents (cfgRate : ℚ) (s : TxState) :
    List TxEvent → Except String TxState
  | [] => .ok s
  | e :: rest =>
    match applyTxEvent cfgRate s e with
    | .error err => .error err
    | .ok (s', _) => runTxEvents cfgRate s' rest

/-- The event's observed input datarate keeps pace with the committed
transmission datarate (a `none` datarate models `bps(NaN)`, which also
never compares below the committed rate). -/
def eventRateOk (cfgRate : ℚ) : TxEvent → Bool
  | .evStart _ datarate _ _ _ =>
    match datarate with
    | some r => decide (cfgRate ≤ r)
    | none => true
  | .evProgress _ datarate _ _ _ =>
    match datarate with
    | some r => decide (cfgRate ≤ r)
    | none => true
  | .evEnd => true

/-- The underrun timer is unscheduled and the committed datarate is
either unset or the configured one. -/
def underrunInv (cfgRate : ℚ) (s : TxState) : Prop :=
  s.bufferUnderrunTimer = none ∧
  (s.txDatarate = none ∨ s.txDatarate = some cfgRate)

theorem rateLt_eq_false_of_ge (cfgRate : ℚ) (dr td : Option ℚ)
    (hdr : ∀ r, dr = some r → cfgRate ≤ r)
    (htd : td = none ∨ td = some cfgRate) :
    rateLt dr td = false := by
  cases dr with
  | none => cases td <;> rfl
  | some r =>
    rcases htd with h | h <;> subst h
    · rfl
    · exact decide_eq_false (not_lt.mpr (hdr r rfl))

theorem eventRateOk_start (cfgRate : ℚ) (packet : Packet) (datarate : Option ℚ)
    (position : ℤ) (now clockNow : ℚ)
    (h : eventRateOk cfgRate (.evStart packet datarate position now clockNow) = true) :
    ∀ r, datarate = some r → cfgRate ≤ r := by
  intro r hr
  subst hr
  exact of_decide_eq_true h

theorem eventRateOk_progress (cfgRate : ℚ) (packet : Packet) (datarate : Option ℚ)
    (position : ℤ) (now clockNow : ℚ)
    (h : eventRateOk cfgRate (.evProgress packet datarate position now clockNow) = true) :
    ∀ r, datarate = some r → cfgRate ≤ r := by
  intro r hr
  subst hr
  exact of_decide_eq_true h

theorem applyTxEvent_preserves_underrunInv (cfgRate : ℚ) (s : TxState)
    (e : TxEvent) (s' : TxState) (outs : List TxOutput)
    (hrate : eventRateOk cfgRate e = true)
    (hinv : underrunInv cfgRate s)
    (hstep : applyTxEvent cfgRate s e = .ok (s', outs)) :
    underrunInv cfgRate s' := by
  cases e with
  | evStart packet datarate position now clockNow =>
    have hdr := eventRateOk_start cfgRate packet datarate position now clockNow hrate
    have hlt : rateLt datarate (some cfgRate) = false :=
      rateLt_eq_false_of_ge cfgRate datarate (some cfgRate) hdr (Or.inr rfl)
    simp only [applyTxEvent, startTx] at hstep
    split at hstep
    · exact absurd hstep (by simp)
    · simp only [scheduleBufferUnderrunTimer, scheduleTxEndTimer, hlt,
        Bool.false_eq_true, if_false, Except.ok.injEq, Prod.mk.injEq] at hstep
      obtain ⟨h1, -⟩ := hstep
      subst h1
      exact ⟨rfl, Or.inr rfl⟩
  | evProgress packet datarate position now clockNow =>
    have hdr := eventRateOk_progress cfgRate packet datarate position now clockNow hrate
    have hlt : rateLt datarate s.txDatarate = false :=
      rateLt_eq_false_of_ge cfgRate datarate s.txDatarate hdr hinv.2
    cases hsig : s.txSignal with
    | none =>
      simp only [applyTxEvent, progressTx, hsig] at hstep
      exact absurd hstep (by simp)
    | some txSig =>
      revert hstep
      simp only [applyTxEvent, progressTx, hsig]
      split <;>
      · intro hstep
        simp only [scheduleBufferUnderrunTimer, scheduleTxEndTimer, hlt,
          Bool.false_eq_true, if_false, Except.ok.injEq, Prod.mk.injEq] at hstep
        obtain ⟨h1, -⟩ := hstep
        subst h1
        exact ⟨rfl, hinv.2⟩
  | evEnd =>
    simp only [applyTxEvent, endTx] at hstep
    cases hsig : s.txSignal with
    | none => rw [hsig] at hstep; simp at hstep
    | some txSig =>
      rw [hsig] at hstep
      simp only [Except.ok.injEq, Prod.mk.injEq] at hstep
      obtain ⟨h1, -⟩ := hstep
      subst h1
      exact ⟨hinv.1, Or.inl rfl⟩

theorem runTxEvents_preserves_underrunInv (cfgRate : ℚ) :
    ∀ (events : List TxEvent) (s s' : TxState),
    (∀ e ∈ events, eventRateOk cfgRate e = true) →
    underrunInv cfgRate s →
    runTxEvents cfgRate s events = .ok s' →
    underrunInv cfgRate s' := by
  intro events
  induction events with
  | nil =>
    intro s s' _ hinv hrun
    simp only [runTxEvents, Except.ok.injEq] at hrun
    subst hrun
    exact hinv
  | cons e rest ih =>
    intro s s' hrates hinv hrun
    simp only [runTxEvents] at hrun
    cases hstep : applyTxEvent cfgRate s e with
    | error err => rw [hstep] at hrun; exact absurd hrun (by simp)
    | ok r =>
      rw [hstep] at hrun
      exact ih r.1 s' (fun e' he' => hrates e' (List.mem_cons_of_mem e he'))
        (applyTxEvent_preserves_underrunInv cfgRate s e r.1 r.2
          (hrates e (List.mem_cons_self e rest)) hinv hstep)
        hrun

/-- C1: the buffer underrun timer is (re)scheduled iff the last observed
input datarate is strictly below the committed transmission datarate; the
scheduled time is the exact algebraic intersection of the two linear
position extrapolations `inputPosition(t) = lastInputProgressPosition +
inputDatarate*(t - lastInputProgressTime)` and `txPosition(t) =
lastTxProgressPosition + txDatarate*(t - lastTxProgressTime)`; when the
condition does not hold any pending timer is cancelled without
rescheduling, and along every start/progress*N/end sequence whose input
datarates keep pace with the committed rate the underrun timer is never
scheduled, hence never fires. -/
theorem underrunTimer_iff_exact_intersection_never_fires :
    (∀ (s : TxState) (ri rt : ℚ),
      s.lastInputDatarate = some ri → s.txDatarate = some rt →
      ((((scheduleBufferUnderrunTimer s).bufferUnderrunTimer).isSome = true) ↔ ri < rt) ∧
      (∀ t, (scheduleBufferUnderrunTimer s).bufferUnderrunTimer = some t →
        (s.lastInputProgressPosition : ℚ) + ri * (t - s.lastInputProgressTime) =
        (s.lastTxProgressPosition : ℚ) + rt * (t - s.lastTxProgressTime)) ∧
      (¬ ri < rt → (scheduleBufferUnderrunTimer s).bufferUnderrunTimer = none)) ∧
    (∀ (cfgRate : ℚ) (events : List TxEvent) (s' : TxState),
      (∀ e ∈ events, eventRateOk cfgRate e = true) →
      runTxEvents cfgRate initTxState events = .ok s' →
      s'.bufferUnderrunTimer = none) := by
  constructor
  · intro s ri rt hri hrt
    have hrl : rateLt s.lastInputDatarate s.txDatarate = decide (ri < rt) := by
      rw [hri, hrt]; rfl
    refine ⟨?_, ?_, ?_⟩
    · by_cases h : ri < rt
      · simp [scheduleBufferUnderrunTimer, hrl, h]
      · simp [scheduleBufferUnderrunTimer, hrl, h]
    · intro t ht
      by_cases h : ri < rt
      · have hrl2 : rateLt (some ri) (some rt) = true := decide_eq_true h
        simp only [scheduleBufferUnderrunTimer, hri, hrt, hrl2, if_true,
          Option.getD_some, Option.some.injEq] at ht
        subst ht
        have hne : ri - rt ≠ 0 := sub_ne_zero.mpr (ne_of_lt h)
        field_simp
        ring
      · simp [scheduleBufferUnderrunTimer, hrl, h] at ht
    · intro h
      simp [scheduleBufferUnderrunTimer, hrl, h]
  · intro cfgRate events s' hrates hrun
    exact (runTxEvents_preserves_underrunInv cfgRate events initTxState s'
      hrates ⟨rfl, Or.inl rfl⟩ hrun).1

/-- A transmitting state whose input lags: input datarate 50 against the
committed 100, both boundaries at position 0 at time 0. -/
def sampleUnderrunState : TxState :=
  { sampleTxState with lastInputDatarate := some 50 }

def sampleEvents : List TxEvent :=
  [.evStart samplePacket (some 200) 0 0 0, .evEnd]

def sampleRunState : TxState :=
  match runTxEvents 100 initTxState sampleEvents with
  | .ok s => s
  | .error _ => sampleTxState

theorem underrunTimer_witness :
    ((((scheduleBufferUnderrunTimer sampleUnderrunState).bufferUnderrunTimer).isSome = true)
      ↔ (50 : ℚ) < 100) ∧
    sampleRunState.bufferUnderrunTimer = none :=
  ⟨(underrunTimer_iff_exact_intersection_never_fires.1
      sampleUnderrunState 50 100 rfl rfl).1,
   underrunTimer_iff_exact_intersection_never_fires.2
      100 sampleEvents sampleRunState (by decide) rfl⟩

def sampleEndResult : TxState × List TxOutput :=
  match endTx sampleTxState with
  | .ok r => r
  | .error _ => (initTxState, [])

def sampleAbortResult : TxState × List TxOutput :=
  match abortTx sampleTxState (1/50) with
  | .ok r => r
  | .error _ => (initTxState, [])

theorem transmitter_signal_invariant_and_sentinel_reset_witness :
    (isTransmitting sampleTxState = true ↔ sampleTxState.txSignal ≠ none) ∧
    sentinelCleared sampleEndResult.1 ∧ sentinelCleared sampleAbortResult.1 :=
  ⟨(transmitter_signal_invariant_and_sentinel_reset sampleTxState (1/50)).1,
   (transmitter_signal_invariant_and_sentinel_reset sampleTxState (1/50)).2.1
     sampleEndResult.1 sampleEndResult.2 rfl,
   (transmitter_signal_invariant_and_sentinel_reset sampleTxState (1/50)).2.2
     sampleAbortResult.1 sampleAbortResult.2 rfl⟩

end StreamThroughTransmitter
